import Mathlib

/-!
Verification of the plan-driven orchestration pipeline of the sql-agent
repository: the planner (`planner.py`), the schema/table resolution
algorithm (`sub_agents/schema_agent.py`), the discrepancy engine
(`sub_agents/discrepancy_agent.py`), the query agent error handling
(`sub_agents/query_agent.py`) and the plan executor (`agent.py`).

Modelling conventions:
- Python strings are Lean `String`s; `str.lower` is modelled on the ASCII
  range only (`ascii_lower`), and the `\w` / `[a-zA-Z0-9_]` character
  classes of the source regexes are modelled by `is_word_char`.
- Python float scores (`1.0`, `0.9`, `0.8`, `len(w)/max(...)`) are
  modelled as exact rationals.
- Python dicts appearing as data are association lists with first-match
  lookup; dict assignment keeps the original key position.
- External collaborators (Oracle cursor execution, Bedrock) are explicit
  function parameters; an execution that raises is an `Except.error`.
-/

namespace SqlAgent

/-- ASCII-range model of Python `str.lower` on a character. -/
def ascii_lower_char (c : Char) : Char :=
  if 'A' ≤ c ∧ c ≤ 'Z' then Char.ofNat (c.toNat + 32) else c

/-- ASCII-range model of Python `str.lower`. -/
def ascii_lower (s : String) : String :=
  String.mk (s.data.map ascii_lower_char)

/-- Characters matched by `\w` and `[a-zA-Z0-9_]` in the source regexes
(ASCII range). -/
def is_word_char (c : Char) : Bool :=
  ('a' ≤ c ∧ c ≤ 'z') ∨ ('A' ≤ c ∧ c ≤ 'Z') ∨ ('0' ≤ c ∧ c ≤ '9') ∨ c = '_'

/-- The quote characters accepted by the optional quoting in the source
regexes. -/
def is_quote_char (c : Char) : Bool :=
  c = '\'' ∨ c = '"'

/-- Model of the Python substring test `a in b` on lists of characters. -/
def list_contained (a : List Char) : List Char → Bool
  | [] => a.isEmpty
  | c :: rest => a.isPrefixOf (c :: rest) || list_contained a rest

/-- Model of the Python substring test `a in b` on strings. -/
def is_substr (a b : String) : Bool :=
  list_contained a.data b.data

/-- First-match association-list lookup, modelling Python dict access. -/
def lookup_assoc (k : String) (l : List (String × α)) : Option α :=
  (l.find? (fun p => p.1 = k)).map Prod.snd

/-- Python dict assignment `d[k] = v`: overwrite in place or append. -/
def dict_insert (k : String) (v : α) : List (String × α) → List (String × α)
  | [] => [(k, v)]
  | (k', v') :: rest => if k' = k then (k, v) :: rest else (k', v') :: dict_insert k v rest

/-- Order-preserving deduplication, modelling iteration over a Python set
built from a list (order is irrelevant to every use site). -/
def dedup_strs : List String → List String :=
  go []
where
  go (seen : List String) : List String → List String
    | [] => []
    | x :: xs => if seen.contains x then go seen xs else x :: go (x :: seen) xs

/-! ## Planner (`planner.py`) -/

/-- A parameter value stored in a plan step's `params` dict: the planner
only ever stores a string or a list of strings. -/
inductive ParamVal where
  | pstr (s : String)
  | plist (l : List String)
deriving DecidableEq, Repr

/-- `PlanStep` dataclass. -/
structure PlanStep where
  agent : String
  action : String
  description : String
  params : List (String × ParamVal) := []
deriving DecidableEq, Repr

/-- `Plan` dataclass. -/
structure Plan where
  query : String
  steps : List PlanStep := []
deriving DecidableEq, Repr

/-- The dictionary produced for one step by `Plan.to_dict`. -/
structure StepDict where
  agent : String
  action : String
  description : String
  params : List (String × ParamVal)
deriving DecidableEq, Repr

/-- The dictionary produced by `Plan.to_dict`. -/
structure PlanDict where
  query : String
  steps : List StepDict
deriving DecidableEq, Repr

/-- `Plan.to_dict`. -/
def Plan.to_dict (p : Plan) : PlanDict :=
  { query := p.query
    steps := p.steps.map (fun s =>
      { agent := s.agent, action := s.action, description := s.description
        params := s.params }) }

/-- `Plan.from_dict`. -/
def Plan.from_dict (d : PlanDict) : Plan :=
  { query := d.query
    steps := d.steps.map (fun s =>
      { agent := s.agent, action := s.action, description := s.description
        params := s.params }) }

/-- The `standard_query` template of `Planner._define_templates`. -/
def standard_query_template : List PlanStep :=
  [ { agent := "schema", action := "get_schema_info"
      description := "Determine which schema and tables to use" }
  , { agent := "query", action := "execute_query"
      description := "Generate and execute SQL query" } ]

/-- The `query_with_discrepancy` template of `Planner._define_templates`. -/
def query_with_discrepancy_template : List PlanStep :=
  standard_query_template ++
  [ { agent := "discrepancy", action := "check_discrepancies"
      description := "Check for discrepancies in the data" } ]

/-- The keyword list of `Planner._query_needs_discrepancy_check`. -/
def discrepancy_keywords : List String :=
  [ "discrepancy", "discrepancies", "inconsistency", "inconsistencies"
  , "error", "errors", "mismatch", "mismatches", "wrong", "incorrect"
  , "validate", "validation", "verify", "verification", "check" ]

/-- `Planner._query_needs_discrepancy_check`. -/
def query_needs_discrepancy_check (query : String) : Bool :=
  discrepancy_keywords.any (fun k => is_substr k (ascii_lower query))

/-- Match one alternative of a planner hint regex at the current position:
a literal (the alternation word plus the following space) then a
non-empty maximal `\w+` group. -/
def match_lit_word (lit : List Char) (s : List Char) : Option (List Char) :=
  if lit.isPrefixOf s then
    let w := (s.drop lit.length).takeWhile is_word_char
    if w.isEmpty then none else some w
  else none

/-- Model of `re.search` for the planner patterns `(table|tables) (\w+)`
and `(schema|database) (\w+)`: scan left to right, at each position try
each alternative in order, return the captured `\w+` group of the first
match. -/
def search_alt_word (lits : List (List Char)) : List Char → Option (List Char)
  | [] => none
  | c :: rest =>
    match lits.findSome? (fun lit => match_lit_word lit (c :: rest)) with
    | some w => some w
    | none => search_alt_word lits rest

/-- `Planner._customize_plan`. -/
def customize_plan (steps : List PlanStep) (query : String) : List PlanStep :=
  let q := (ascii_lower query).data
  let steps1 :=
    match search_alt_word ["table ".data, "tables ".data] q with
    | some t => steps.map (fun st =>
        if st.agent = "schema" then
          { st with params := dict_insert "suggested_tables" (ParamVal.plist [String.mk t]) st.params }
        else st)
    | none => steps
  match search_alt_word ["schema ".data, "database ".data] q with
  | some sname => steps1.map (fun st =>
      if st.agent = "schema" then
        { st with params := dict_insert "suggested_schema" (ParamVal.pstr (String.mk sname)) st.params }
      else st)
  | none => steps1

/-- `Planner.create_plan` (the `_copy_template` deep copy is the identity
in a pure model). -/
def create_plan (query : String) : Plan :=
  let steps :=
    if query_needs_discrepancy_check query then query_with_discrepancy_template
    else standard_query_template
  { query := query, steps := customize_plan steps query }

/-! Helper lemmas on the planner. -/

theorem map_agent_params_update (l : List PlanStep)
    (f : List (String × ParamVal) → List (String × ParamVal)) :
    (l.map (fun st =>
      if st.agent = "schema" then { st with params := f st.params } else st)).map
        PlanStep.agent = l.map PlanStep.agent := by
  simp only [List.map_map]
  refine List.map_congr_left (fun st _ => ?_)
  by_cases h : st.agent = "schema" <;> simp [h]

theorem customize_plan_map_agent (steps : List PlanStep) (query : String) :
    (customize_plan steps query).map PlanStep.agent = steps.map PlanStep.agent := by
  unfold customize_plan
  cases h1 : search_alt_word ["table ".data, "tables ".data] (ascii_lower query).data <;>
    cases h2 : search_alt_word ["schema ".data, "database ".data] (ascii_lower query).data <;>
    simp only [h1, h2] <;>
    simp only [map_agent_params_update]

/-! ## Schema agent (`sub_agents/schema_agent.py`) -/

/-- Cached catalog: schema → table → ordered column list, modelling
`SchemaAgent.schema_cache` (Python dicts as association lists). -/
abbrev SchemaCache := List (String × List (String × List String))

/-- Match, at the current position, a source pattern of the shape
`lit['\"]?([a-zA-Z0-9_]+)['\"]?`: the literal `lit`, an optional quote, a
non-empty maximal word-character group, and a greedy optional trailing
quote. Returns the captured group and the number of characters the whole
match consumes. When the optional quote is taken but no word character
follows, backtracking cannot succeed (a quote is not a word character),
so the position fails, as in the source regexes. -/
def match_lit_quote_word (lit : List Char) (s : List Char) : Option (List Char × Nat) :=
  if lit.isPrefixOf s then
    let r1 := s.drop lit.length
    let q : Nat :=
      match r1 with
      | c :: _ => if is_quote_char c then 1 else 0
      | [] => 0
    let r2 := r1.drop q
    let w := r2.takeWhile is_word_char
    if w.isEmpty then none
    else
      let r3 := r2.drop w.length
      let tq : Nat :=
        match r3 with
        | c :: _ => if is_quote_char c then 1 else 0
        | [] => 0
      some (w, lit.length + q + w.length + tq)
  else none

/-- Model of `re.search` for the three schema patterns: return the group
of the leftmost position where the pattern matches. -/
def search_lit_quote_word (lit : List Char) : List Char → Option (List Char)
  | [] => none
  | c :: rest =>
    match match_lit_quote_word lit (c :: rest) with
    | some (w, _) => some w
    | none => search_lit_quote_word lit rest

/-- One iteration of the pattern loop of
`SchemaAgent._extract_schema_from_query`: once a name has been returned
it stands; otherwise search the next pattern and accept its name only
when it is a known schema. -/
def extract_schema_step (schemas : List String) (q : List Char)
    (acc : Option String) (lit : List Char) : Option String :=
  match acc with
  | some r => some r
  | none =>
    match search_lit_quote_word lit q with
    | some w => if schemas.contains (String.mk w) then some (String.mk w) else none
    | none => none

/-- `SchemaAgent._extract_schema_from_query`: try the three patterns in
order on the lower-cased query; a pattern whose extracted name is not a
known schema does not return, the next pattern is tried. -/
def extract_schema_from_query (schemas : List String) (query : String) : Option String :=
  ["in schema ".data, "from schema ".data, "database ".data].foldl
    (extract_schema_step schemas (ascii_lower query).data) none

/-- Model of `re.finditer`: scan left to right; after a match, resume
after its last consumed character (non-overlapping matches). The fuel is
the string length plus one: every step consumes at least one character,
so the fuel never runs out. -/
def finditer_by (m : List Char → Option (List Char × Nat)) : Nat → List Char → List (List Char)
  | 0, _ => []
  | _ + 1, [] => []
  | fuel + 1, c :: rest =>
    match m (c :: rest) with
    | some (w, k) => w :: finditer_by m fuel ((c :: rest).drop (max k 1))
    | none => finditer_by m fuel rest

/-- All matches of a position matcher, in order. -/
def finditer (m : List Char → Option (List Char × Nat)) (s : List Char) : List (List Char) :=
  finditer_by m (s.length + 1) s

/-- Position matcher for `table[s]? ['\"]?([a-zA-Z0-9_]+)['\"]?`: the
greedy `[s]?` tries the `tables ` branch first; the two literals can
never match at the same position, so its backtracking is plain
alternation. -/
def match_table_word (s : List Char) : Option (List Char × Nat) :=
  match match_lit_quote_word "tables ".data s with
  | some r => some r
  | none => match_lit_quote_word "table ".data s

/-- Position matcher for `in ['\"]?([a-zA-Z0-9_]+)['\"]? table`: as
`match_lit_quote_word` but the match must be followed by the literal
` table`, with the greedy optional quote in between. -/
def match_in_table (s : List Char) : Option (List Char × Nat) :=
  if "in ".data.isPrefixOf s then
    let r1 := s.drop 3
    let q : Nat :=
      match r1 with
      | c :: _ => if is_quote_char c then 1 else 0
      | [] => 0
    let r2 := r1.drop q
    let w := r2.takeWhile is_word_char
    if w.isEmpty then none
    else
      let r3 := r2.drop w.length
      match r3 with
      | c :: cs =>
        if is_quote_char c then
          if " table".data.isPrefixOf cs then some (w, 3 + q + w.length + 1 + 6) else none
        else if " table".data.isPrefixOf r3 then some (w, 3 + q + w.length + 6)
        else none
      | [] => none
  else none

/-- The membership test of `_extract_tables_from_query`: the name is a
table of at least one known schema present in the cache. -/
def table_in_some_schema (schemas : List String) (cache : SchemaCache) (t : String) : Bool :=
  schemas.any (fun s =>
    match lookup_assoc s cache with
    | some td => (td.map Prod.fst).contains t
    | none => false)

/-- `SchemaAgent._extract_tables_from_query`. -/
def extract_tables_from_query (schemas : List String) (cache : SchemaCache)
    (query : String) : List String :=
  let q := (ascii_lower query).data
  let ms := finditer (match_lit_quote_word "from ".data) q ++
            finditer match_table_word q ++
            finditer match_in_table q
  ms.filterMap (fun w =>
    if table_in_some_schema schemas cache (String.mk w) then some (String.mk w) else none)

/-- Maximal word-character runs of a character list (the matches of
`\b[a-zA-Z0-9_]{3,}\b` before the length filter). Fuel as in
`finditer_by`. -/
def word_runs : Nat → List Char → List (List Char)
  | 0, _ => []
  | _ + 1, [] => []
  | fuel + 1, c :: rest =>
    if is_word_char c then
      (c :: rest.takeWhile is_word_char) :: word_runs fuel (rest.dropWhile is_word_char)
    else word_runs fuel rest

/-- The token set `set(re.findall(r'\b[a-zA-Z0-9_]{3,}\b', query_lower))`
of `_infer_tables_from_query`. -/
def tokenize (query : String) : List String :=
  let q := (ascii_lower query).data
  dedup_strs (((word_runs (q.length + 1) q).filter (fun r => 3 ≤ r.length)).map String.mk)

/-- The partial-overlap score of one token against a table name, the
exact value of `(len(word) / max(len(word), len(table))) * 0.8`. It is
built with `mkRat` (not `/` and `*` on `ℚ`) so that concrete runs reduce
in the kernel; `overlap_score_code_eq` proves it equal to the source
formula. -/
def overlap_score_code (tlow w : String) : ℚ :=
  mkRat (4 * w.length) (5 * max w.length tlow.length)

/-- The partial-match loop of `_infer_tables_from_query`: for every token
that contains the table name or is contained in it, raise the table's
score entry to `(len(word) / max(len(word), len(table))) * 0.8`; `none`
models the absence of a dict entry. -/
def overlap_loop (tlow : String) : List String → Option ℚ → Option ℚ
  | [], acc => acc
  | w :: ws, acc =>
    if is_substr tlow w || is_substr w tlow then
      overlap_loop tlow ws (some (max (acc.getD 0) (overlap_score_code tlow w)))
    else overlap_loop tlow ws acc

/-- Python `str.endswith('s')`. -/
def ends_in_s (t : List Char) : Bool :=
  t.getLast? = some 's'

/-- The singular form used by `_infer_tables_from_query`:
`table_lower[:-1]` when the name ends in `s`, else the name. -/
def singular_form (tlow : String) : String :=
  if ends_in_s tlow.data then String.mk tlow.data.dropLast else tlow

/-- The plural form used by `_infer_tables_from_query`: the name with `s`
appended unless it already ends in `s`. -/
def plural_form (tlow : String) : String :=
  if ends_in_s tlow.data then tlow else tlow ++ "s"

/-- The per-table score of `_infer_tables_from_query`: 1.0 on an exact
token match, 0.9 on a singular/plural token match, otherwise the
partial-overlap score (absent when no token overlaps). -/
def score_table (t : String) (words : List String) : Option ℚ :=
  let tlow := ascii_lower t
  if words.contains tlow then some 1
  else if words.contains (singular_form tlow) || words.contains (plural_form tlow) then
    some (mkRat 9 10)
  else overlap_loop tlow words none

/-- Lexicographic comparison of character lists by code point, the order
Python uses to compare strings. -/
def chars_le : List Char → List Char → Bool
  | [], _ => true
  | _ :: _, [] => false
  | a :: as, b :: bs =>
    if a.toNat < b.toNat then true
    else if b.toNat < a.toNat then false
    else chars_le as bs

/-- Python string comparison `a <= b` (code-point lexicographic). -/
def py_str_le (a b : String) : Bool :=
  chars_le a.data b.data

theorem chars_le_total : ∀ a b : List Char, chars_le a b = true ∨ chars_le b a = true := by
  intro a
  induction a with
  | nil => intro b; left; rfl
  | cons x xs ih =>
    intro b
    cases b with
    | nil => right; rfl
    | cons y ys =>
      by_cases hxy : x.toNat < y.toNat
      · left; simp [chars_le, hxy]
      · by_cases hyx : y.toNat < x.toNat
        · right; simp [chars_le, hyx]
        · rcases ih ys with h | h
          · left; simp [chars_le, hxy, hyx, h]
          · right; simp [chars_le, hxy, hyx, h]

theorem chars_le_trans :
    ∀ a b c : List Char, chars_le a b = true → chars_le b c = true → chars_le a c = true := by
  intro a
  induction a with
  | nil => intro b c _ _; rfl
  | cons x xs ih =>
    intro b c h1 h2
    cases b with
    | nil => exact absurd h1 (by simp [chars_le])
    | cons y ys =>
      cases c with
      | nil => exact absurd h2 (by simp [chars_le])
      | cons z zs =>
        simp only [chars_le] at h1 h2 ⊢
        by_cases hxy : x.toNat < y.toNat
        · by_cases hyz : y.toNat < z.toNat
          · simp [Nat.lt_trans hxy hyz]
          · rw [if_neg hyz] at h2
            by_cases hzy : z.toNat < y.toNat
            · rw [if_pos hzy] at h2; exact absurd h2 (by simp)
            · have hxz : x.toNat < z.toNat := by omega
              simp [hxz]
        · rw [if_neg hxy] at h1
          by_cases hyx : y.toNat < x.toNat
          · rw [if_pos hyx] at h1; exact absurd h1 (by simp)
          · rw [if_neg hyx] at h1
            by_cases hyz : y.toNat < z.toNat
            · have hxz : x.toNat < z.toNat := by omega
              simp [hxz]
            · rw [if_neg hyz] at h2
              by_cases hzy : z.toNat < y.toNat
              · rw [if_pos hzy] at h2; exact absurd h2 (by simp)
              · rw [if_neg hzy] at h2
                have hxz : ¬ x.toNat < z.toNat := by omega
                have hzx : ¬ z.toNat < x.toNat := by omega
                rw [if_neg hxz, if_neg hzx]
                exact ih ys zs h1 h2

theorem chars_le_antisymm :
    ∀ a b : List Char, chars_le a b = true → chars_le b a = true → a = b := by
  intro a
  induction a with
  | nil =>
    intro b h1 h2
    cases b with
    | nil => rfl
    | cons y ys => exact absurd h2 (by simp [chars_le])
  | cons x xs ih =>
    intro b h1 h2
    cases b with
    | nil => exact absurd h1 (by simp [chars_le])
    | cons y ys =>
      simp only [chars_le] at h1 h2
      by_cases hxy : x.toNat < y.toNat
      · rw [if_neg (by omega), if_pos hxy] at h2
        exact absurd h2 (by simp)
      · by_cases hyx : y.toNat < x.toNat
        · rw [if_neg hxy, if_pos hyx] at h1
          exact absurd h1 (by simp)
        · rw [if_neg hxy, if_neg hyx] at h1
          rw [if_neg hyx, if_neg hxy] at h2
          have hn : x.toNat = y.toNat := by omega
          have hchar : x = y := Char.ext (UInt32.toNat.inj hn)
          rw [hchar, ih ys h1 h2]

/-- The strict weak order realised by
`sorted([(score, table), ...], reverse=True)`: descending score, ties by
descending table name (Python tuple comparison, reversed). -/
def pair_rev_le (a b : ℚ × String) : Prop :=
  b.1 < a.1 ∨ (b.1 = a.1 ∧ py_str_le b.2 a.2 = true)

instance : DecidableRel pair_rev_le := fun a b => by
  unfold pair_rev_le
  infer_instance

instance : IsTotal (ℚ × String) pair_rev_le where
  total a b := by
    rcases lt_trichotomy a.1 b.1 with h | h | h
    · exact Or.inr (Or.inl h)
    · rcases chars_le_total b.2.data a.2.data with h2 | h2
      · exact Or.inl (Or.inr ⟨h.symm, h2⟩)
      · exact Or.inr (Or.inr ⟨h, h2⟩)
    · exact Or.inl (Or.inl h)

instance : IsTrans (ℚ × String) pair_rev_le where
  trans a b c hab hbc := by
    rcases hab with h1 | ⟨h1, h1'⟩ <;> rcases hbc with h2 | ⟨h2, h2'⟩
    · exact Or.inl (lt_trans h2 h1)
    · exact Or.inl (lt_of_eq_of_lt h2 h1)
    · exact Or.inl (lt_of_lt_of_eq h2 h1)
    · exact Or.inr ⟨h2.trans h1, chars_le_trans _ _ _ h2' h1'⟩

instance : IsAntisymm (ℚ × String) pair_rev_le where
  antisymm a b hab hba := by
    rcases hab with h1 | ⟨h1, h1'⟩ <;> rcases hba with h2 | ⟨h2, h2'⟩
    · exact absurd (lt_trans h1 h2) (lt_irrefl _)
    · exact absurd (lt_of_lt_of_eq h1 h2) (lt_irrefl _)
    · exact absurd (lt_of_lt_of_eq h2 h1) (lt_irrefl _)
    · exact Prod.ext h2 (congrArg String.mk (chars_le_antisymm _ _ h2' h1'))

/-- The sort `sorted(..., reverse=True)` on (score, table) pairs. Python's
sort is stable, but `pair_rev_le` is antisymmetric (distinct pairs are
never tied), so any correct sort produces this list. -/
def sorted_pairs (l : List (ℚ × String)) : List (ℚ × String) :=
  List.insertionSort pair_rev_le l

/-- `SchemaAgent._infer_tables_from_query`. -/
def infer_tables_from_query (cache : SchemaCache) (query : String)
    (schema : Option String) : List String :=
  match schema with
  | none => []
  | some s =>
    match lookup_assoc s cache with
    | none => []
    | some tdict =>
      let words := tokenize query
      let available_tables := dedup_strs (tdict.map Prod.fst)
      let table_scores := available_tables.filterMap (fun t =>
        (score_table t words).map (fun sc => (sc, t)))
      let sorted_tables := sorted_pairs table_scores
      ((sorted_tables.filter (fun p => decide (mkRat 1 2 ≤ p.1))).map Prod.snd).take 3

/-- The `SchemaSelection` result dict of `get_schema_info`. -/
structure SchemaInfo where
  available_schemas : List String
  selected_schema : Option String
  selected_tables : List String
  table_columns : List (String × List String)
deriving DecidableEq, Repr

/-- Python falsiness of an optional string (`None` or the empty string). -/
def py_falsy_str : Option String → Bool
  | none => true
  | some s => s = ""

/-- `SchemaAgent.get_schema_info`. The two `context.get` hints are the
`ctx_suggested_schema` / `ctx_suggested_tables` parameters (absent hint:
`none` / `[]`, matching Python falsiness). -/
def get_schema_info (schemas : List String) (cache : SchemaCache) (query : String)
    (ctx_suggested_schema : Option String) (ctx_suggested_tables : List String) : SchemaInfo :=
  let suggested_schema0 :=
    match ctx_suggested_schema with
    | some s => if s = "" then extract_schema_from_query schemas query else some s
    | none => extract_schema_from_query schemas query
  let suggested_schema :=
    if py_falsy_str suggested_schema0 && !schemas.isEmpty then schemas.head?
    else suggested_schema0
  let suggested_tables0 :=
    if ctx_suggested_tables.isEmpty then extract_tables_from_query schemas cache query
    else ctx_suggested_tables
  let suggested_tables :=
    if suggested_tables0.isEmpty then infer_tables_from_query cache query suggested_schema
    else suggested_tables0
  let table_columns := suggested_tables.foldl (fun acc t =>
    match suggested_schema with
    | some s =>
      match lookup_assoc s cache with
      | some td =>
        match lookup_assoc t td with
        | some cols => dict_insert t cols acc
        | none => acc
      | none => acc
    | none => acc) []
  { available_schemas := schemas
    selected_schema := suggested_schema
    selected_tables := suggested_tables
    table_columns := table_columns }

/-! Helper lemmas on the schema agent. -/

theorem match_lqw_group_ne_nil {lit s : List Char} {w : List Char} {k : Nat}
    (h : match_lit_quote_word lit s = some (w, k)) : w ≠ [] := by
  unfold match_lit_quote_word at h
  split at h
  · dsimp only at h
    split at h
    · exact absurd h (by simp)
    · next hw =>
      injection h with h'
      injection h' with hw' _
      subst hw'
      simpa using hw
  · exact absurd h (by simp)

theorem search_lqw_group_ne_nil {lit : List Char} :
    ∀ {s : List Char} {w : List Char}, search_lit_quote_word lit s = some w → w ≠ [] := by
  intro s
  induction s with
  | nil => intro w h; exact absurd h (by simp [search_lit_quote_word])
  | cons c rest ih =>
    intro w h
    unfold search_lit_quote_word at h
    cases hm : match_lit_quote_word lit (c :: rest) with
    | some r =>
      rw [hm] at h
      injection h with h'
      subst h'
      exact match_lqw_group_ne_nil hm
    | none =>
      rw [hm] at h
      exact ih h

theorem extract_schema_step_inv {schemas : List String} {q : List Char}
    {acc : Option String} {lit : List Char}
    (hacc : ∀ e, acc = some e → e ≠ "" ∧ e ∈ schemas) :
    ∀ e, extract_schema_step schemas q acc lit = some e → e ≠ "" ∧ e ∈ schemas := by
  intro e h
  cases acc with
  | some r =>
    simp only [extract_schema_step] at h
    injection h with h'
    exact h' ▸ hacc r rfl
  | none =>
    simp only [extract_schema_step] at h
    cases hs : search_lit_quote_word lit q with
    | some w =>
      simp only [hs] at h
      split at h
      · next hmem =>
        injection h with h'
        subst h'
        refine ⟨?_, by simpa using hmem⟩
        intro hcon
        exact search_lqw_group_ne_nil hs (by simpa using congrArg String.data hcon)
      · exact absurd h (by simp)
    | none =>
      simp only [hs] at h
      exact absurd h (by simp)

theorem extract_schema_from_query_inv {schemas : List String} {query : String} {e : String}
    (h : extract_schema_from_query schemas query = some e) : e ≠ "" ∧ e ∈ schemas := by
  have main : ∀ (lits : List (List Char)) (acc : Option String),
      (∀ e', acc = some e' → e' ≠ "" ∧ e' ∈ schemas) →
      ∀ e', lits.foldl (extract_schema_step schemas (ascii_lower query).data) acc = some e' →
        e' ≠ "" ∧ e' ∈ schemas := by
    intro lits
    induction lits with
    | nil => intro acc hacc e' h'; exact hacc e' h'
    | cons lit rest ih =>
      intro acc hacc e' h'
      exact ih _ (fun e'' he'' => extract_schema_step_inv hacc e'' he'') e' h'
  exact main _ none (by intro e' h'; exact absurd h' (by simp)) e h

/-- The schema-determination rule of `get_schema_info`, written from the
amended claim: a present non-empty hint is used as is (no membership
check); otherwise a pattern-extracted known schema name; otherwise the
first known schema (`none` on an empty catalog). -/
def resolve_schema_spec (schemas : List String) (query : String)
    (hint : Option String) : Option String :=
  match hint with
  | some s =>
    if s ≠ "" then some s
    else
      match extract_schema_from_query schemas query with
      | some e => some e
      | none => schemas.head?
  | none =>
    match extract_schema_from_query schemas query with
    | some e => some e
    | none => schemas.head?

/-- C2 counterexample: with catalog `["sales"]` and hint `"bogus"` (not a
known schema), resolution selects `"bogus"` — the claimed membership
check does not exist, and the claimed fallback `"sales"` is not chosen. -/
theorem C2_counterexample :
    (get_schema_info ["sales"] [] "hello" (some "bogus") []).selected_schema = some "bogus" ∧
      ("bogus" ∈ (["sales"] : List String) → False) ∧
      (some "bogus" : Option String) ≠ some "sales" := by
  refine ⟨by decide, by decide, by decide⟩

/-- C2 amended: the resolved schema is the hint whenever it is present
and non-empty (no membership check against the catalog); otherwise the
extracted name, accepted only when it is a known schema; otherwise the
first known schema, `none` on an empty catalog. Resolution is a total
function (never raises). -/
theorem C2_schema_resolution (schemas : List String) (cache : SchemaCache) (query : String)
    (hint : Option String) (tables : List String) :
    (get_schema_info schemas cache query hint tables).selected_schema =
      resolve_schema_spec schemas query hint := by
  have hfall :
      (if py_falsy_str (extract_schema_from_query schemas query) && !schemas.isEmpty
          then schemas.head? else extract_schema_from_query schemas query) =
        (match extract_schema_from_query schemas query with
          | some e => some e
          | none => schemas.head?) := by
    cases hext : extract_schema_from_query schemas query with
    | some e =>
      have he : e ≠ "" := (extract_schema_from_query_inv hext).1
      simp [py_falsy_str, he]
    | none =>
      cases schemas with
      | nil => simp [py_falsy_str]
      | cons a l => simp [py_falsy_str]
  simp only [get_schema_info, resolve_schema_spec]
  cases hint with
  | none => simpa using hfall
  | some s =>
    by_cases hs : s = ""
    · subst hs
      simp only [if_pos rfl, ne_eq, not_true_eq_false, if_false, Bool.false_eq_true]
      simpa using hfall
    · simp only [if_neg hs, if_pos hs, ne_eq]
      simp [py_falsy_str, hs]

theorem sorted_pairs_filter (p : ℚ × String → Bool) (l : List (ℚ × String)) :
    (sorted_pairs l).filter p = sorted_pairs (l.filter p) := by
  have hperm : ((sorted_pairs l).filter p).Perm (sorted_pairs (l.filter p)) :=
    ((List.perm_insertionSort pair_rev_le l).filter p).trans
      (List.perm_insertionSort pair_rev_le (l.filter p)).symm
  have hs1 : List.Sorted pair_rev_le ((sorted_pairs l).filter p) :=
    List.Pairwise.filter p (List.sorted_insertionSort pair_rev_le l)
  have hs2 : List.Sorted pair_rev_le (sorted_pairs (l.filter p)) :=
    List.sorted_insertionSort pair_rev_le (l.filter p)
  exact List.eq_of_perm_of_sorted hperm hs1 hs2

/-- The scored inference written from the amended claim: keep exactly the
tables scoring at least 0.5, rank them by descending score with ties
broken by descending table name, and truncate to the top 3. -/
def infer_tables_ranked_spec (cache : SchemaCache) (query : String)
    (schema : Option String) : List String :=
  match schema with
  | none => []
  | some s =>
    match lookup_assoc s cache with
    | none => []
    | some tdict =>
      let words := tokenize query
      let available_tables := dedup_strs (tdict.map Prod.fst)
      let table_scores := available_tables.filterMap (fun t =>
        (score_table t words).map (fun sc => (sc, t)))
      let kept := table_scores.filter (fun p => decide (mkRat 1 2 ≤ p.1))
      ((sorted_pairs kept).map Prod.snd).take 3

/-- C3 counterexample: with catalog enumeration order `cat, dog` and a
request containing both names exactly, both tables score 1.0, yet the
result is `["dog", "cat"]` — the tie is broken by descending table name,
not by catalog enumeration order (which would give `["cat", "dog"]`). -/
theorem C3_counterexample :
    infer_tables_from_query [("s", [("cat", ["a"]), ("dog", ["b"])])] "cat dog" (some "s") =
        ["dog", "cat"] ∧
      score_table "cat" (tokenize "cat dog") = some 1 ∧
      score_table "dog" (tokenize "cat dog") = some 1 ∧
      (["dog", "cat"] : List String) ≠ ["cat", "dog"] := by
  refine ⟨by decide, by decide, by decide, by decide⟩

/-- C3 amended: the scored inference returns exactly the tables scoring
at least 0.5, ranked by descending score and truncated to the top 3,
with ties between equal scores broken by descending table name (Python's
reversed tuple comparison), not by catalog enumeration order. -/
theorem C3_scored_inference (cache : SchemaCache) (query : String) (schema : Option String) :
    infer_tables_from_query cache query schema =
      infer_tables_ranked_spec cache query schema := by
  unfold infer_tables_from_query infer_tables_ranked_spec
  cases schema with
  | none => rfl
  | some s =>
    dsimp only
    cases lookup_assoc s cache with
    | none => rfl
    | some tdict =>
      dsimp only
      rw [sorted_pairs_filter]

/-- The tokens overlapping a table name: the name contains the token or
the token contains the name. -/
def matching_words (tlow : String) (ws : List String) : List String :=
  ws.filter (fun w => is_substr tlow w || is_substr w tlow)

theorem matching_words_cons_pos {tlow w : String} {ws : List String}
    (h : (is_substr tlow w || is_substr w tlow) = true) :
    matching_words tlow (w :: ws) = w :: matching_words tlow ws := by
  simp [matching_words, List.filter_cons, h]

theorem matching_words_cons_neg {tlow w : String} {ws : List String}
    (h : (is_substr tlow w || is_substr w tlow) = false) :
    matching_words tlow (w :: ws) = matching_words tlow ws := by
  simp [matching_words, List.filter_cons, h]

/-- The partial-overlap score of one token against a table name:
`(len(word) / max(len(word), len(table))) * 0.8`. -/
def overlap_sim (tlow w : String) : ℚ :=
  (w.length : ℚ) / (max w.length tlow.length : ℚ) * (4 / 5)

theorem overlap_sim_nonneg (tlow w : String) : 0 ≤ overlap_sim tlow w := by
  unfold overlap_sim
  have h1 : (0 : ℚ) ≤ (w.length : ℚ) := by positivity
  have h2 : (0 : ℚ) ≤ (max w.length tlow.length : ℚ) := by positivity
  have := div_nonneg h1 h2
  positivity

/-- The `mkRat` representation of the partial-overlap score is exactly the
source's `(len(word) / max(len(word), len(table))) * 0.8`. -/
theorem overlap_score_code_eq (tlow w : String) :
    overlap_score_code tlow w = overlap_sim tlow w := by
  unfold overlap_score_code overlap_sim
  rcases Nat.eq_zero_or_pos (max w.length tlow.length) with hb | hb
  · rw [hb]
    have hw : w.length = 0 := by omega
    simp [Rat.mkRat_eq_div, hw]
  · have hb' : ((max w.length tlow.length : ℕ) : ℚ) ≠ 0 := Nat.cast_ne_zero.mpr hb.ne'
    rw [Rat.mkRat_eq_div]
    push_cast
    field_simp
    ring

theorem overlap_score_code_nonneg (tlow w : String) : 0 ≤ overlap_score_code tlow w := by
  rw [overlap_score_code_eq]
  exact overlap_sim_nonneg tlow w

theorem overlap_loop_some (tlow : String) :
    ∀ (ws : List String) (a : ℚ),
      overlap_loop tlow ws (some a) =
        some (((matching_words tlow ws).map (overlap_score_code tlow)).foldl max a) := by
  intro ws
  induction ws with
  | nil => intro a; rfl
  | cons w ws ih =>
    intro a
    by_cases hm : (is_substr tlow w || is_substr w tlow) = true
    · rw [matching_words_cons_pos hm, List.map_cons, List.foldl_cons]
      simp only [overlap_loop, hm, if_true, Option.getD_some]
      exact ih (max a (overlap_score_code tlow w))
    · have hm' : (is_substr tlow w || is_substr w tlow) = false := by
        simpa using hm
      rw [matching_words_cons_neg hm']
      simp only [overlap_loop, hm', Bool.false_eq_true, if_false]
      exact ih a

theorem overlap_loop_none (tlow : String) :
    ∀ ws : List String,
      overlap_loop tlow ws none =
        ((matching_words tlow ws).map (overlap_score_code tlow)).max? := by
  intro ws
  induction ws with
  | nil => rfl
  | cons w ws ih =>
    by_cases hm : (is_substr tlow w || is_substr w tlow) = true
    · rw [matching_words_cons_pos hm, List.map_cons]
      simp only [overlap_loop, hm, if_true, Option.getD_none]
      rw [overlap_loop_some]
      have h0 : max 0 (overlap_score_code tlow w) = overlap_score_code tlow w :=
        max_eq_right (overlap_score_code_nonneg tlow w)
      rw [h0]
      rfl
    · have hm' : (is_substr tlow w || is_substr w tlow) = false := by
        simpa using hm
      rw [matching_words_cons_neg hm']
      simp only [overlap_loop, hm', Bool.false_eq_true, if_false]
      exact ih

/-- C4 counterexample: table name `cat`, token `catalogs`: the name is a
substring of the token, and the code scores `(8 / max(8,3)) * 0.8 = 0.8`,
not the claimed `(3/8) * 0.8 = 0.3` (shorter over longer). -/
theorem C4_counterexample :
    score_table "cat" ["catalogs"] = some (mkRat 4 5) ∧
      (mkRat 4 5 : ℚ) ≠ (3 : ℚ) / 8 * (4 / 5) := by
  constructor
  · decide
  · rw [Rat.mkRat_eq_div]
    norm_num

/-- C4 amended: for a table with no exact and no singular/plural token
match, whenever some token overlaps the table name (one is a substring of
the other) the score is the maximum over the overlapping tokens of
`(len(token) / max(len(token), len(name))) * 0.8` — the numerator is the
token length, not the shorter of the two lengths. -/
theorem C4_overlap_score (t : String) (ws : List String)
    (hex : ws.contains (ascii_lower t) = false)
    (hsing : ws.contains (singular_form (ascii_lower t)) = false)
    (hplur : ws.contains (plural_form (ascii_lower t)) = false) :
    score_table t ws =
      ((matching_words (ascii_lower t) ws).map (overlap_sim (ascii_lower t))).max? := by
  unfold score_table
  simp only [hex, hsing, hplur, Bool.false_eq_true, if_neg, Bool.or_self, if_false]
  rw [overlap_loop_none]
  congr 1
  exact List.map_congr_left (fun w _ => overlap_score_code_eq (ascii_lower t) w)

/-- C4 amended, witness at the counterexample input. -/
theorem C4_overlap_score_witness :
    (["catalogs"] : List String).contains (ascii_lower "cat") = false ∧
      score_table "cat" ["catalogs"] =
        ((matching_words (ascii_lower "cat") ["catalogs"]).map
          (overlap_sim (ascii_lower "cat"))).max? :=
  ⟨by decide,
    C4_overlap_score "cat" ["catalogs"] (by decide) (by decide) (by decide)⟩

theorem dedup_go_not_seen :
    ∀ (l seen : List String) (x : String), x ∈ dedup_strs.go seen l → seen.contains x = false := by
  intro l
  induction l with
  | nil => intro seen x hx; exact absurd hx (by simp [dedup_strs.go])
  | cons y ys ih =>
    intro seen x hx
    unfold dedup_strs.go at hx
    split at hx
    · exact ih seen x hx
    · next hy =>
      rcases List.mem_cons.mp hx with h | h
      · subst h; simpa using hy
      · have := ih (y :: seen) x h
        simp only [List.contains_cons, Bool.or_eq_false_iff] at this
        exact this.2

theorem dedup_go_nodup : ∀ (l seen : List String), (dedup_strs.go seen l).Nodup := by
  intro l
  induction l with
  | nil => intro seen; simp [dedup_strs.go]
  | cons y ys ih =>
    intro seen
    unfold dedup_strs.go
    split
    · exact ih seen
    · refine List.Nodup.cons ?_ (ih (y :: seen))
      intro hy
      have := dedup_go_not_seen ys (y :: seen) y hy
      simp at this

theorem dedup_strs_nodup (l : List String) : (dedup_strs l).Nodup :=
  dedup_go_nodup l []

theorem map_snd_filterMap_sublist (l : List String) (g : String → Option ℚ) :
    ((l.filterMap (fun t => (g t).map (fun sc => (sc, t)))).map Prod.snd).Sublist l := by
  induction l with
  | nil => simp
  | cons t ts ih =>
    cases hg : g t with
    | none => simpa [List.filterMap_cons, hg] using ih.cons t
    | some sc => simpa [List.filterMap_cons, hg] using ih.cons₂ t

/-- The scored-inference path never repeats a table: catalog keys are
deduplicated (the `set()` of the source) and each table contributes at
most one scored pair. -/
theorem infer_tables_nodup (cache : SchemaCache) (query : String) (schema : Option String) :
    (infer_tables_from_query cache query schema).Nodup := by
  unfold infer_tables_from_query
  cases schema with
  | none => simp
  | some s =>
    dsimp only
    cases lookup_assoc s cache with
    | none => simp
    | some tdict =>
      dsimp only
      have h0 : (dedup_strs (tdict.map Prod.fst)).Nodup := dedup_strs_nodup _
      have h2 : (((dedup_strs (tdict.map Prod.fst)).filterMap (fun t =>
          (score_table t (tokenize query)).map (fun sc => (sc, t)))).map Prod.snd).Nodup :=
        (map_snd_filterMap_sublist _ _).nodup h0
      have h3 : ((sorted_pairs ((dedup_strs (tdict.map Prod.fst)).filterMap (fun t =>
          (score_table t (tokenize query)).map (fun sc => (sc, t))))).map Prod.snd).Nodup :=
        (((List.perm_insertionSort pair_rev_le _).map Prod.snd).nodup_iff).mpr h2
      refine (List.take_sublist 3 _).nodup ?_
      exact ((List.filter_sublist _).map Prod.snd).nodup h3

/-- C6 counterexample: the request `from orders from orders` matches the
`from X` extraction pattern twice, and each match of an existing table is
appended without deduplication. -/
theorem C6_counterexample :
    (get_schema_info ["s"] [("s", [("orders", ["id"])])] "from orders from orders"
        none []).selected_tables = ["orders", "orders"] ∧
      ¬ (["orders", "orders"] : List String).Nodup := by
  refine ⟨by decide, by decide⟩

/-- C6 amended: `selected_tables` is duplicate-free whenever the tables
come from the scored-inference path (no caller hint and no extraction
match); the extraction path may repeat a table name, once per matching
pattern occurrence. -/
theorem C6_inferred_tables_nodup (schemas : List String) (cache : SchemaCache) (query : String)
    (hext : extract_tables_from_query schemas cache query = []) :
    (get_schema_info schemas cache query none []).selected_tables.Nodup := by
  simp only [get_schema_info, List.isEmpty_nil, if_pos, hext]
  simpa using infer_tables_nodup cache query _

/-- C6 amended, witness on a request resolved by scored inference. -/
theorem C6_inferred_tables_nodup_witness :
    extract_tables_from_query ["s"] [("s", [("cat", ["a"]), ("dog", ["b"])])] "cat dog" = [] ∧
      (get_schema_info ["s"] [("s", [("cat", ["a"]), ("dog", ["b"])])] "cat dog"
        none []).selected_tables.Nodup :=
  ⟨by decide, C6_inferred_tables_nodup _ _ _ (by decide)⟩

/-! ## Discrepancy agent (`sub_agents/discrepancy_agent.py`) -/

/-- A Python value in a result row: `None`, an int, or a string (the
forms exercised by the generic checks). -/
inductive DVal where
  | vnull
  | vint (n : Int)
  | vstr (s : String)
deriving DecidableEq, Repr

/-- Python `str` of a row value, as interpolated into messages. -/
def py_str : DVal → String
  | .vnull => "None"
  | .vint n => toString n
  | .vstr s => s

/-- A result row: a dict field → value (insertion order preserved). -/
abbrev Row := List (String × DVal)

/-- One discrepancy record. The source emits dicts with key sets that
differ per record type; absent keys are the `none`/`[]` defaults here. -/
structure DRecord where
  dtype : String
  severity : String
  message : String
  row_indices : List Nat := []
  fields : List String := []
  value : Option DVal := none
  rule_name : Option String := none
  details : Option Row := none
deriving DecidableEq, Repr

/-- The non-critical fields skipped by the null check. -/
def non_critical_fields : List String :=
  ["id", "created_at", "updated_at", "notes", "description"]

/-- The null records of one row, in field order. -/
def null_check_row (idx : Nat) (row : Row) : List DRecord :=
  row.filterMap (fun fv =>
    if non_critical_fields.contains (ascii_lower fv.1) then none
    else if fv.2 = DVal.vnull then
      some { dtype := "null_value", severity := "low"
             message := "Null value detected in field '" ++ fv.1 ++ "' at row " ++
               toString (idx + 1)
             row_indices := [idx], fields := [fv.1] }
    else none)

/-- The null-value section of `_apply_generic_checks`: rows in order,
fields in row order. -/
def null_check (data : List Row) : List DRecord :=
  (data.enum.map (fun p => null_check_row p.1 p.2)).flatten

/-- The candidate unique fields of the duplicate check. -/
def primary_fields : List String :=
  ["id", "code", "key"]

/-- Python `row.get(field)`: the stored value, `None` when the key is
absent. -/
def row_val (f : String) (row : Row) : DVal :=
  ((row.find? (fun p => p.1 = f)).map Prod.snd).getD DVal.vnull

/-- The `duplicate_value` record for value `v` of field `f` first seen at
row `i` and seen again at row `j`. -/
def mk_dup_record (f : String) (v : DVal) (i j : Nat) : DRecord :=
  { dtype := "duplicate_value", severity := "high"
    message := "Duplicate value '" ++ py_str v ++ "' in field '" ++ f ++ "' at rows " ++
      toString (i + 1) ++ " and " ++ toString (j + 1)
    row_indices := [i, j], fields := [f], value := some v }

/-- The row scan of the duplicate check for one field: `seen` is the
value → first-index dict (`seen_values[field]`). -/
def dup_scan (f : String) : List Row → Nat → List (DVal × Nat) → List DRecord
  | [], _, _ => []
  | row :: rest, idx, seen =>
    let v := row_val f row
    match (seen.find? (fun p => p.1 = v)).map Prod.snd with
    | some first => mk_dup_record f v first idx :: dup_scan f rest (idx + 1) seen
    | none => dup_scan f rest (idx + 1) ((v, idx) :: seen)

/-- The duplicate records of one candidate field. -/
def dup_check_field (f : String) (data : List Row) : List DRecord :=
  dup_scan f data 0 []

/-- The duplicate-value section of `_apply_generic_checks`: each
candidate field present as a key of the first row, in the fixed field
order. -/
def dup_checks (data : List Row) : List DRecord :=
  (primary_fields.map (fun f =>
    match data with
    | [] => []
    | r0 :: _ => if (r0.map Prod.fst).contains f then dup_check_field f data else [])).flatten

/-- `DiscrepancyAgent._apply_generic_checks` (the unused `schema_info`
argument is kept from the source signature). -/
def apply_generic_checks (data : List Row) (_schema_info : Option SchemaInfo) : List DRecord :=
  null_check data ++ dup_checks data

/-- A business rule: an optional caller-supplied predicate, an optional
declarative query, and the record metadata read by `_execute_rule_query`. -/
structure Rule where
  check_function : Option (List Row → List DRecord) := none
  sql_query : Option String := none
  rtype : Option String := none
  severity : Option String := none
  message : Option String := none
  name : Option String := none

/-- The rule names for which a native `_check_<name>` method exists
(`_check_price_consistency`, `_check_inventory_balance`); both built-in
methods return the empty list for every input. -/
def native_check_names : List String :=
  ["price_consistency", "inventory_balance"]

/-- `DiscrepancyAgent._execute_rule_query`: run the rule's declarative
query through the data source; an execution error is logged and yields
zero records. -/
def execute_rule_query (db : String → Except String (List Row)) (rule : Rule) : List DRecord :=
  match rule.sql_query with
  | none => []
  | some sql =>
    if sql = "" then []
    else
      match db sql with
      | .error _ => []
      | .ok rows =>
        rows.map (fun row =>
          { dtype := rule.rtype.getD "business_rule"
            severity := rule.severity.getD "medium"
            message := rule.message.getD
              ("Business rule '" ++ rule.name.getD "unnamed" ++ "' violated")
            rule_name := some (rule.name.getD "unnamed")
            details := some row })

/-- `DiscrepancyAgent._apply_business_rules`: iterate rules in
registration order; native check by name first, then the rule's own
predicate, then its declarative query. -/
def apply_business_rules (db : String → Except String (List Row))
    (rules : List (String × Rule)) (data : List Row)
    (_schema_info : Option SchemaInfo) : List DRecord :=
  if rules.isEmpty then []
  else
    (rules.map (fun nr =>
      if native_check_names.contains nr.1 then []
      else
        match nr.2.check_function with
        | some f => f data
        | none =>
          match nr.2.sql_query with
          | some _ => execute_rule_query db nr.2
          | none => [])).flatten

/-- The formatted query-result dict (`format_oracle_results` output plus
the `sql_query` and, on failure, `error` keys; an absent key is the
field's default, matching every `.get(key, default)` read site). -/
structure QueryResult where
  columns : List String := []
  data : List Row := []
  row_count : Nat := 0
  truncated : Bool := false
  rowcount : Int := 0
  sql_query : String := ""
  error : Option String := none
deriving DecidableEq, Repr

/-- `DiscrepancyAgent.check_discrepancies`: the Bedrock analyzer and the
data source are explicit collaborators; the `query_result` of the
context is `none` when the key is absent. -/
def check_discrepancies
    (bedrock_analyze : Option (QueryResult → List (String × Rule) → List DRecord))
    (rules : List (String × Rule)) (db : String → Except String (List Row))
    (query_result : Option QueryResult) (schema_info : Option SchemaInfo) : List DRecord :=
  match query_result with
  | none => []
  | some qr =>
    if qr.data.isEmpty then []
    else
      let ai_discrepancies :=
        match bedrock_analyze with
        | some analyze => if rules.isEmpty then [] else analyze qr rules
        | none => []
      ai_discrepancies ++ apply_generic_checks qr.data schema_info ++
        apply_business_rules db rules qr.data schema_info

/-! Helper lemmas on the discrepancy agent. -/

/-- Empty or absent data short-circuits `check_discrepancies` for every
collaborator and rule set. -/
theorem check_discrepancies_no_data
    (ai : Option (QueryResult → List (String × Rule) → List DRecord))
    (rules : List (String × Rule)) (db : String → Except String (List Row))
    (qr : Option QueryResult) (si : Option SchemaInfo)
    (h : qr = none ∨ ∃ q, qr = some q ∧ q.data = []) :
    check_discrepancies ai rules db qr si = [] := by
  rcases h with h | ⟨q, rfl, hq⟩
  · subst h; rfl
  · simp [check_discrepancies, hq]

/-- The index of the first row whose value of field `f` is `v`. -/
def first_val_idx (f : String) (v : DVal) : List Row → Option Nat
  | [] => none
  | r :: rs => if row_val f r = v then some 0 else (first_val_idx f v rs).map (· + 1)

/-- What the duplicate scan emits at row index `j`, per the claim: a
record referencing the first occurrence `i` of row `j`'s value exactly
when that first occurrence is strictly earlier. -/
def dup_spec_at (f : String) (data : List Row) (j : Nat) : Option DRecord :=
  match data[j]? with
  | none => none
  | some row =>
    match first_val_idx f (row_val f row) data with
    | none => none
    | some i => if i < j then some (mk_dup_record f (row_val f row) i j) else none

/-- The duplicate check of one field written from the amended claim: scan
all row indices in order and emit per `dup_spec_at`. -/
def dup_check_spec (f : String) (data : List Row) : List DRecord :=
  (List.range data.length).filterMap (dup_spec_at f data)

theorem first_val_idx_append (f : String) (v : DVal) (l1 l2 : List Row) :
    first_val_idx f v (l1 ++ l2) =
      match first_val_idx f v l1 with
      | some i => some i
      | none => (first_val_idx f v l2).map (· + l1.length) := by
  induction l1 with
  | nil =>
    simp only [List.nil_append, first_val_idx, List.length_nil]
    cases first_val_idx f v l2 <;> simp
  | cons r l1 ih =>
    by_cases hr : row_val f r = v
    · simp [first_val_idx, hr]
    · simp only [List.cons_append, first_val_idx, hr, if_false, List.length_cons,
        List.append_eq]
      rw [ih]
      cases h1 : first_val_idx f v l1 with
      | some i => simp
      | none =>
        cases h2 : first_val_idx f v l2 with
        | some i => simp [Nat.add_assoc, Nat.add_comm 1]
        | none => simp

theorem first_val_idx_lt_length (f : String) (v : DVal) :
    ∀ (l : List Row) (i : Nat), first_val_idx f v l = some i → i < l.length := by
  intro l
  induction l with
  | nil => intro i h; exact absurd h (by simp [first_val_idx])
  | cons r rs ih =>
    intro i h
    by_cases hr : row_val f r = v
    · simp only [first_val_idx, hr, if_true] at h
      injection h with h'
      subst h'
      simp
    · simp only [first_val_idx, hr, if_false] at h
      cases hi : first_val_idx f v rs with
      | none => rw [hi] at h; exact absurd h (by simp)
      | some i' =>
        rw [hi] at h
        injection h with h'
        subst h'
        have := ih i' hi
        simp only [List.length_cons]
        omega

theorem dup_scan_eq_spec_aux (f : String) (data : List Row) :
    ∀ (rest : List Row) (idx : Nat) (seen : List (DVal × Nat)),
      data.drop idx = rest →
      (∀ v, (seen.find? (fun p => p.1 = v)).map Prod.snd =
        first_val_idx f v (data.take idx)) →
      dup_scan f rest idx seen =
        (List.range' idx rest.length).filterMap (dup_spec_at f data) := by
  intro rest
  induction rest with
  | nil => intro idx seen _ _; rfl
  | cons row rest ih =>
    intro idx seen hdrop hseen
    have hget : data[idx]? = some row := by
      have h0 : (data.drop idx)[0]? = some row := by rw [hdrop]; simp
      rw [List.getElem?_drop] at h0
      simpa using h0
    have hlt : idx < data.length := by
      have := congrArg List.length hdrop
      simp only [List.length_drop, List.length_cons] at this
      omega
    have hdrop' : data.drop (idx + 1) = rest := by
      have h1 : List.drop 1 (data.drop idx) = rest := by rw [hdrop]; rfl
      rwa [List.drop_drop] at h1
    have htake : data.take (idx + 1) = data.take idx ++ [row] := by
      rw [List.take_succ, hget]
      rfl
    have hlen_take : (data.take idx).length = idx := by
      rw [List.length_take]
      omega
    have hext : ∀ v', first_val_idx f v' (data.take (idx + 1)) =
        (match first_val_idx f v' (data.take idx) with
          | some i => some i
          | none => if row_val f row = v' then some idx else none) := by
      intro v'
      rw [htake, first_val_idx_append]
      cases first_val_idx f v' (data.take idx) with
      | some i => rfl
      | none =>
        by_cases hrv : row_val f row = v'
        · simp [first_val_idx, hrv, hlen_take]
        · simp [first_val_idx, hrv]
    rw [List.length_cons, List.range'_succ, List.filterMap_cons]
    cases hl : (seen.find? (fun p => p.1 = row_val f row)).map Prod.snd with
    | some i =>
      have hfirst : first_val_idx f (row_val f row) (data.take idx) = some i := by
        rw [← hseen]
        exact hl
      have hi_lt : i < idx := by
        have := first_val_idx_lt_length f (row_val f row) (data.take idx) i hfirst
        omega
      have hfull : first_val_idx f (row_val f row) data = some i := by
        rw [← List.take_append_drop idx data, first_val_idx_append, hfirst]
      have hspec : dup_spec_at f data idx = some (mk_dup_record f (row_val f row) i idx) := by
        simp only [dup_spec_at, hget, hfull]
        rw [if_pos hi_lt]
      rw [hspec]
      show dup_scan f (row :: rest) idx seen = _
      simp only [dup_scan, hl]
      refine congrArg (mk_dup_record f (row_val f row) i idx :: ·) ?_
      refine ih (idx + 1) seen hdrop' ?_
      intro v'
      rw [hext v', ← hseen v']
      cases hv : (seen.find? (fun p => p.1 = v')).map Prod.snd with
      | some j => rfl
      | none =>
        by_cases hrv : row_val f row = v'
        · exfalso
          rw [hrv, hseen v'] at hl
          rw [hseen v'] at hv
          rw [hv] at hl
          exact absurd hl (by simp)
        · simp [hrv]
    | none =>
      have hfirst : first_val_idx f (row_val f row) (data.take idx) = none := by
        rw [← hseen]
        exact hl
      have hfull : first_val_idx f (row_val f row) data = some idx := by
        rw [← List.take_append_drop idx data, first_val_idx_append, hfirst, hdrop]
        simp [first_val_idx, hlen_take]
      have hspec : dup_spec_at f data idx = none := by
        simp only [dup_spec_at, hget, hfull]
        rw [if_neg (lt_irrefl idx)]
      rw [hspec]
      show dup_scan f (row :: rest) idx seen = _
      simp only [dup_scan, hl]
      refine ih (idx + 1) ((row_val f row, idx) :: seen) hdrop' ?_
      intro v'
      rw [hext v']
      by_cases hv' : row_val f row = v'
      · simp only [List.find?_cons, hv', if_pos]
        have : first_val_idx f v' (data.take idx) = none := hv' ▸ hfirst
        rw [this]
        simp [hv']
      · have hfind : List.find? (fun p => p.1 = v') ((row_val f row, idx) :: seen) =
            List.find? (fun p => p.1 = v') seen := by
          rw [List.find?_cons]
          simp [hv']
        rw [hfind, hseen v']
        cases first_val_idx f v' (data.take idx) with
        | some j => rfl
        | none => simp [hv']

/-- The duplicate check of one field equals its claim-side description:
at each row index `j`, a record is emitted exactly when the first row
holding row `j`'s value sits strictly before `j`, referencing both
indices, the field and the value. -/
theorem dup_check_field_eq_spec (f : String) (data : List Row) :
    dup_check_field f data = dup_check_spec f data := by
  unfold dup_check_field dup_check_spec
  rw [List.range_eq_range']
  have h := dup_scan_eq_spec_aux f data data 0 [] (by simp)
    (by intro v; simp [first_val_idx])
  simpa using h

/-- C5 counterexample: two rows whose `id` is null. The scan stores null
as an ordinary dict key, so the second null emits a `duplicate_value`
record whose offending value is null — the claim's "previously seen
non-null value" qualifier does not hold of the code. -/
theorem C5_counterexample :
    apply_generic_checks [[("id", DVal.vnull)], [("id", DVal.vnull)]] none =
        [mk_dup_record "id" DVal.vnull 0 1] ∧
      (mk_dup_record "id" DVal.vnull 0 1).value = some DVal.vnull := by
  exact ⟨by decide, rfl⟩

/-- C5 amended: for each candidate key field present as a column of the
batch, scanning rows in order, a duplicate_value/high record referencing
the first occurrence's index and the current index (and the field and
value) is emitted exactly when the current row's value equals a
previously seen value, null included; in particular rows
`[{id:1},{id:2},{id:1}]` emit exactly one record with row_indices `[0,2]`. -/
theorem C5_duplicate_check :
    (∀ (f : String) (data : List Row), dup_check_field f data = dup_check_spec f data) ∧
      apply_generic_checks
          [[("id", DVal.vint 1)], [("id", DVal.vint 2)], [("id", DVal.vint 1)]] none =
        [mk_dup_record "id" (DVal.vint 1) 0 2] :=
  ⟨dup_check_field_eq_spec, by decide⟩

/-- C9: an absent query result or an empty data batch makes the
discrepancy check return `[]` for every Bedrock collaborator, rule
registry and data source — so none of them can be invoked (the result is
independent of all three). -/
theorem C9_no_data_returns_empty
    (ai : Option (QueryResult → List (String × Rule) → List DRecord))
    (rules : List (String × Rule)) (db : String → Except String (List Row))
    (qr : Option QueryResult) (si : Option SchemaInfo)
    (h : qr = none ∨ ∃ q, qr = some q ∧ q.data = []) :
    check_discrepancies ai rules db qr si = [] :=
  check_discrepancies_no_data ai rules db qr si h

/-- C9 witness: a nontrivial collaborator and registry on an absent query
result still yield `[]`. -/
theorem C9_no_data_returns_empty_witness :
    ((none : Option QueryResult) = none ∨
        ∃ q, (none : Option QueryResult) = some q ∧ q.data = []) ∧
      check_discrepancies
        (some (fun _ _ => [{ dtype := "x", severity := "high", message := "m" }]))
        [("r", { sql_query := some "SELECT 1 FROM dual" })]
        (fun _ => Except.error "boom") none none = [] :=
  ⟨Or.inl rfl,
    C9_no_data_returns_empty
      (some (fun _ _ => [{ dtype := "x", severity := "high", message := "m" }]))
      [("r", { sql_query := some "SELECT 1 FROM dual" })]
      (fun _ => Except.error "boom") none none (Or.inl rfl)⟩

/-! ## Query agent and plan executor (`sub_agents/query_agent.py`,
`agent.py`) -/

/-- The formatted output of a successful cursor execution
(`format_oracle_results`). -/
structure DbResult where
  columns : List String := []
  data : List Row := []
  row_count : Nat := 0
  truncated : Bool := false
  rowcount : Int := 0
deriving DecidableEq, Repr

/-- The shared context dict threaded through `SQLAgent._execute_plan`:
its only keys are `user_query`, `schema_info`, `query_result` and
`discrepancies` (an absent key is `none`). -/
structure Ctx where
  user_query : String
  schema_info : Option SchemaInfo := none
  query_result : Option QueryResult := none
  discrepancies : Option (List DRecord) := none
deriving Repr

/-- `QueryAgent.execute_query`: SQL generation is delegated to the
Bedrock collaborator `gen_sql` (the rule-based fallback is dead code, its
later redefinition having an incompatible signature); the cursor
execution is `db`. An execution failure is caught and returned as a dict
holding only the `error` and `sql_query` keys. -/
def execute_query (gen_sql : String → Option SchemaInfo → String)
    (db : String → Except String DbResult) (user_query : String) (ctx : Ctx) : QueryResult :=
  let sql := gen_sql user_query ctx.schema_info
  match db sql with
  | .ok r =>
    { columns := r.columns, data := r.data, row_count := r.row_count
      truncated := r.truncated, rowcount := r.rowcount, sql_query := sql, error := none }
  | .error e => { error := some e, sql_query := sql }

/-- One iteration of the loop of `SQLAgent._execute_plan`. The schema
step passes the shared context to `get_schema_info`, and the context
never holds the `suggested_schema` / `suggested_tables` keys, so the
hints are `none` / `[]` regardless of the stage's params. -/
def execute_step (schemas : List String) (cache : SchemaCache)
    (gen_sql : String → Option SchemaInfo → String) (db : String → Except String DbResult)
    (rule_db : String → Except String (List Row))
    (ai : Option (QueryResult → List (String × Rule) → List DRecord))
    (rules : List (String × Rule)) (user_query : String) (ctx : Ctx) (step : PlanStep) : Ctx :=
  if step.agent = "schema" then
    { ctx with schema_info := some (get_schema_info schemas cache user_query none []) }
  else if step.agent = "query" then
    { ctx with query_result := some (execute_query gen_sql db user_query ctx) }
  else if step.agent = "discrepancy" then
    let ds := check_discrepancies ai rules rule_db ctx.query_result ctx.schema_info
    { ctx with discrepancies := some ds }
  else ctx

/-- The context after `SQLAgent._execute_plan` has run all steps. -/
def execute_plan_ctx (schemas : List String) (cache : SchemaCache)
    (gen_sql : String → Option SchemaInfo → String) (db : String → Except String DbResult)
    (rule_db : String → Except String (List Row))
    (ai : Option (QueryResult → List (String × Rule) → List DRecord))
    (rules : List (String × Rule)) (plan : Plan) (user_query : String) : Ctx :=
  plan.steps.foldl (execute_step schemas cache gen_sql db rule_db ai rules user_query)
    { user_query := user_query }

/-- The result dict returned by `SQLAgent._execute_plan`. -/
structure AgentResult where
  result : QueryResult
  discrepancies : List DRecord
  schema_used : Option String
  tables_used : List String
  plan : PlanDict
deriving Repr

/-- `SQLAgent._execute_plan`: run the steps, then assemble the summary
from the context with the source's `.get` defaults. -/
def execute_plan (schemas : List String) (cache : SchemaCache)
    (gen_sql : String → Option SchemaInfo → String) (db : String → Except String DbResult)
    (rule_db : String → Except String (List Row))
    (ai : Option (QueryResult → List (String × Rule) → List DRecord))
    (rules : List (String × Rule)) (plan : Plan) (user_query : String) : AgentResult :=
  let ctx := execute_plan_ctx schemas cache gen_sql db rule_db ai rules plan user_query
  { result := ctx.query_result.getD {}
    discrepancies := ctx.discrepancies.getD []
    schema_used := ctx.schema_info.bind (fun si => si.selected_schema)
    tables_used := (ctx.schema_info.map (fun si => si.selected_tables)).getD []
    plan := plan.to_dict }

/-! Helper lemmas on the plan executor under a failing query
collaborator. -/

/-- Invariant while executing any plan whose cursor execution fails with
`e`: a present query result carries the error and no data, and a present
discrepancy list is empty. -/
def err_inv (e : String) (c : Ctx) : Prop :=
  (c.query_result = none ∨
    ∃ qr, c.query_result = some qr ∧ qr.error = some e ∧ qr.data = []) ∧
  (c.discrepancies = none ∨ c.discrepancies = some [])

theorem execute_step_err_inv (schemas : List String) (cache : SchemaCache)
    (gen_sql : String → Option SchemaInfo → String)
    (rule_db : String → Except String (List Row))
    (ai : Option (QueryResult → List (String × Rule) → List DRecord))
    (rules : List (String × Rule)) (user_query e : String) (c : Ctx) (step : PlanStep)
    (h : err_inv e c) :
    err_inv e (execute_step schemas cache gen_sql (fun _ => Except.error e) rule_db ai rules
      user_query c step) := by
  unfold execute_step
  by_cases h1 : step.agent = "schema"
  · rw [if_pos h1]
    exact h
  · rw [if_neg h1]
    by_cases h2 : step.agent = "query"
    · rw [if_pos h2]
      exact ⟨Or.inr ⟨_, rfl, rfl, rfl⟩, h.2⟩
    · rw [if_neg h2]
      by_cases h3 : step.agent = "discrepancy"
      · rw [if_pos h3]
        refine ⟨h.1, Or.inr ?_⟩
        have hempty : check_discrepancies ai rules rule_db c.query_result c.schema_info = [] := by
          refine check_discrepancies_no_data ai rules rule_db c.query_result c.schema_info ?_
          rcases h.1 with h' | ⟨qr, hq, _, hd⟩
          · exact Or.inl h'
          · exact Or.inr ⟨qr, hq, hd⟩
        simp [hempty]
      · rw [if_neg h3]
        exact h

theorem execute_step_query_result_set (schemas : List String) (cache : SchemaCache)
    (gen_sql : String → Option SchemaInfo → String) (db : String → Except String DbResult)
    (rule_db : String → Except String (List Row))
    (ai : Option (QueryResult → List (String × Rule) → List DRecord))
    (rules : List (String × Rule)) (user_query : String) (c : Ctx) (step : PlanStep) :
    (step.agent = "query" ∨ c.query_result ≠ none) →
      (execute_step schemas cache gen_sql db rule_db ai rules user_query c step).query_result ≠
        none := by
  intro h
  unfold execute_step
  split_ifs with h1 h2 h3
  · rcases h with h' | h'
    · exact absurd (h1.symm.trans h') (by decide)
    · exact h'
  · simp
  · rcases h with h' | h'
    · exact absurd h' h2
    · exact h'
  · rcases h with h' | h'
    · exact absurd h' h2
    · exact h'

theorem execute_step_discrepancies_set (schemas : List String) (cache : SchemaCache)
    (gen_sql : String → Option SchemaInfo → String) (db : String → Except String DbResult)
    (rule_db : String → Except String (List Row))
    (ai : Option (QueryResult → List (String × Rule) → List DRecord))
    (rules : List (String × Rule)) (user_query : String) (c : Ctx) (step : PlanStep) :
    (step.agent = "discrepancy" ∨ c.discrepancies ≠ none) →
      (execute_step schemas cache gen_sql db rule_db ai rules user_query c
        step).discrepancies ≠ none := by
  intro h
  unfold execute_step
  split_ifs with h1 h2 h3
  · rcases h with h' | h'
    · exact absurd (h1.symm.trans h') (by decide)
    · exact h'
  · rcases h with h' | h'
    · exact absurd (h2.symm.trans h') (by decide)
    · exact h'
  · simp
  · rcases h with h' | h'
    · exact absurd h' h3
    · exact h'

theorem foldl_err_inv (schemas : List String) (cache : SchemaCache)
    (gen_sql : String → Option SchemaInfo → String)
    (rule_db : String → Except String (List Row))
    (ai : Option (QueryResult → List (String × Rule) → List DRecord))
    (rules : List (String × Rule)) (user_query e : String) :
    ∀ (steps : List PlanStep) (c : Ctx), err_inv e c →
      err_inv e (steps.foldl
        (execute_step schemas cache gen_sql (fun _ => Except.error e) rule_db ai rules user_query)
        c) ∧
      (("query" ∈ steps.map PlanStep.agent ∨ c.query_result ≠ none) →
        (steps.foldl
          (execute_step schemas cache gen_sql (fun _ => Except.error e) rule_db ai rules
            user_query) c).query_result ≠ none) ∧
      (("discrepancy" ∈ steps.map PlanStep.agent ∨ c.discrepancies ≠ none) →
        (steps.foldl
          (execute_step schemas cache gen_sql (fun _ => Except.error e) rule_db ai rules
            user_query) c).discrepancies ≠ none) := by
  intro steps
  induction steps with
  | nil =>
    intro c hc
    refine ⟨hc, ?_, ?_⟩ <;>
      · intro h
        rcases h with h | h
        · simp at h
        · exact h
  | cons s ss ih =>
    intro c hc
    have hstep := execute_step_err_inv schemas cache gen_sql rule_db ai rules user_query e c s hc
    obtain ⟨ha, hb, hd⟩ := ih _ hstep
    refine ⟨ha, ?_, ?_⟩
    · intro h
      refine hb ?_
      rcases h with h | h
      · rcases List.mem_cons.mp h with h' | h'
        · exact Or.inr (execute_step_query_result_set schemas cache gen_sql _ rule_db ai rules
            user_query c s (Or.inl h'.symm))
        · exact Or.inl h'
      · exact Or.inr (execute_step_query_result_set schemas cache gen_sql _ rule_db ai rules
          user_query c s (Or.inr h))
    · intro h
      refine hd ?_
      rcases h with h | h
      · rcases List.mem_cons.mp h with h' | h'
        · exact Or.inr (execute_step_discrepancies_set schemas cache gen_sql _ rule_db ai rules
            user_query c s (Or.inl h'.symm))
        · exact Or.inl h'
      · exact Or.inr (execute_step_discrepancies_set schemas cache gen_sql _ rule_db ai rules
          user_query c s (Or.inr h))

/-- C8: when the cursor execution raises, the error is captured as the
`error` field of the query result (`data` stays absent), the pipeline is
not aborted — a discrepancy stage still runs and writes the empty list —
and the run returns a plain result object with the error inside and
empty discrepancies; the model is a total function, so no exception
reaches the caller. -/
theorem C8_query_failure_not_fatal (schemas : List String) (cache : SchemaCache)
    (gen_sql : String → Option SchemaInfo → String)
    (rule_db : String → Except String (List Row))
    (ai : Option (QueryResult → List (String × Rule) → List DRecord))
    (rules : List (String × Rule)) (plan : Plan) (user_query e : String)
    (hq : "query" ∈ plan.steps.map PlanStep.agent) :
    (∃ qr, (execute_plan_ctx schemas cache gen_sql (fun _ => Except.error e) rule_db ai rules
        plan user_query).query_result = some qr ∧ qr.error = some e ∧ qr.data = []) ∧
      (execute_plan schemas cache gen_sql (fun _ => Except.error e) rule_db ai rules plan
        user_query).result.error = some e ∧
      (execute_plan schemas cache gen_sql (fun _ => Except.error e) rule_db ai rules plan
        user_query).discrepancies = [] ∧
      ("discrepancy" ∈ plan.steps.map PlanStep.agent →
        (execute_plan_ctx schemas cache gen_sql (fun _ => Except.error e) rule_db ai rules plan
          user_query).discrepancies = some []) := by
  have h0 : err_inv e ({ user_query := user_query } : Ctx) := ⟨Or.inl rfl, Or.inl rfl⟩
  obtain ⟨ha0, hb0, hd0⟩ := foldl_err_inv schemas cache gen_sql rule_db ai rules user_query e
    plan.steps { user_query := user_query } h0
  have ha : err_inv e (execute_plan_ctx schemas cache gen_sql (fun _ => Except.error e) rule_db
      ai rules plan user_query) := ha0
  have hb : ("query" ∈ plan.steps.map PlanStep.agent ∨
      ({ user_query := user_query } : Ctx).query_result ≠ none) →
      (execute_plan_ctx schemas cache gen_sql (fun _ => Except.error e) rule_db ai rules plan
        user_query).query_result ≠ none := hb0
  have hd : ("discrepancy" ∈ plan.steps.map PlanStep.agent ∨
      ({ user_query := user_query } : Ctx).discrepancies ≠ none) →
      (execute_plan_ctx schemas cache gen_sql (fun _ => Except.error e) rule_db ai rules plan
        user_query).discrepancies ≠ none := hd0
  have hqr_ne : (execute_plan_ctx schemas cache gen_sql (fun _ => Except.error e) rule_db ai
      rules plan user_query).query_result ≠ none := hb (Or.inl hq)
  obtain ⟨qr, hqr, herr, hdata⟩ :
      ∃ qr, (execute_plan_ctx schemas cache gen_sql (fun _ => Except.error e) rule_db ai rules
        plan user_query).query_result = some qr ∧ qr.error = some e ∧ qr.data = [] := by
    rcases ha.1 with h | h
    · exact absurd h hqr_ne
    · exact h
  refine ⟨⟨qr, hqr, herr, hdata⟩, ?_, ?_, ?_⟩
  · show ((execute_plan_ctx schemas cache gen_sql (fun _ => Except.error e) rule_db ai rules
        plan user_query).query_result.getD {}).error = some e
    rw [hqr]
    exact herr
  · show (execute_plan_ctx schemas cache gen_sql (fun _ => Except.error e) rule_db ai rules
        plan user_query).discrepancies.getD [] = []
    rcases ha.2 with h | h <;> simp [h]
  · intro hdm
    have hne := hd (Or.inl hdm)
    rcases ha.2 with h | h
    · exact absurd h hne
    · exact h

/-- C8 witness: a two-stage plan under a failing cursor still returns a
result carrying the error. -/
theorem C8_query_failure_not_fatal_witness :
    ("query" ∈ (create_plan "show employees").steps.map PlanStep.agent) ∧
      (execute_plan ["s"] [] (fun _ _ => "SQL") (fun _ => Except.error "boom")
        (fun _ => Except.ok []) none [] (create_plan "show employees")
        "show employees").result.error = some "boom" :=
  ⟨by decide,
    (C8_query_failure_not_fatal ["s"] [] (fun _ _ => "SQL") (fun _ => Except.ok []) none []
      (create_plan "show employees") "show employees" "boom" (by decide)).2.1⟩

/-- C1: the planner injects `suggested_schema = "hr"` into the schema
stage of the plan for `schema hr show employees`, but `_execute_plan`
passes only the shared context (which never carries stage params) to
`get_schema_info`, so resolution falls back to the first catalog schema
`finance`; had the stage hints been passed as the claim and spec state,
`hr` would have been selected. -/
theorem C1_stage_hints_dropped :
    ((create_plan "schema hr show employees").steps.map (fun st => (st.agent, st.params)) =
      [("schema", [("suggested_schema", ParamVal.pstr "hr")]), ("query", [])]) ∧
      (execute_plan ["finance", "hr"] [("finance", []), ("hr", [("employees", ["id", "name"])])]
        (fun _ _ => "SQL") (fun _ => Except.ok {}) (fun _ => Except.ok []) none []
        (create_plan "schema hr show employees") "schema hr show employees").schema_used =
        some "finance" ∧
      (get_schema_info ["finance", "hr"] [("finance", []), ("hr", [("employees", ["id", "name"])])]
        "schema hr show employees" (some "hr") []).selected_schema = some "hr" ∧
      (some "finance" : Option String) ≠ some "hr" := by
  refine ⟨by decide, by decide, by decide, by decide⟩

/-- C7: for every request string, `PlanBuilder.build` returns the 3-stage
plan (schema, query, discrepancy in that order) exactly when some
discrepancy keyword occurs in the lower-cased request as a substring, and
the 2-stage plan (schema, query) otherwise. -/
theorem C7_plan_stage_count (query : String) :
    (create_plan query).steps.map PlanStep.agent =
      (if ∃ k ∈ discrepancy_keywords, is_substr k (ascii_lower query) then
        ["schema", "query", "discrepancy"]
      else ["schema", "query"]) := by
  have hiff : query_needs_discrepancy_check query = true ↔
      ∃ k ∈ discrepancy_keywords, is_substr k (ascii_lower query) := by
    simp [query_needs_discrepancy_check, List.any_eq_true]
  unfold create_plan
  by_cases h : ∃ k ∈ discrepancy_keywords, is_substr k (ascii_lower query)
  · have hb : query_needs_discrepancy_check query = true := hiff.mpr h
    simp only [hb, if_pos h, if_true, customize_plan_map_agent]
    rfl
  · have hb : query_needs_discrepancy_check query = false := by
      cases hq : query_needs_discrepancy_check query with
      | true => exact absurd (hiff.mp hq) h
      | false => rfl
    simp only [hb, if_neg h, if_false, customize_plan_map_agent]
    rfl

/-- C10: serialization round-trip: `Plan.from_dict (p.to_dict)` restores
the query and every step's agent, action, description and params. -/
theorem C10_plan_roundtrip (p : Plan) : Plan.from_dict (Plan.to_dict p) = p := by
  cases p with
  | mk q steps =>
    simp only [Plan.to_dict, Plan.from_dict, List.map_map]
    congr 1
    exact List.map_id steps

end SqlAgent
